import Mathlib

/-!
Verification of the htmlc template expansion engine.

The definitions below are a shallow embedding of the `ComponentParser`
class: the directive evaluator (`parseConditionals`, `parseLoops`), the
attribute parser (`parseAttributes` for `ATTR_REGEX`), the tag scanner
(`tagTryMatch`, comment extraction and restoration, `pct` for
`parseComponentTags`), the component resolver (`renderComponent`), and the
depth-limited directory walkers (`findHtmlFiles`, `copyDirectoryContents`).
Strings are processed as `List Char`; the regular expressions of the source
are embedded as explicit matchers with the same lazy/greedy behaviour on
the match shapes that occur.  Recursion through nested components is
modelled with a fuel parameter (the source has no cycle guard; fuel
exhaustion models the stack limit as an exception).  JavaScript exceptions are
modelled with `Except Unit`.
-/

namespace Htmlc

/-- Whitespace test for the JavaScript regex class backslash-s (the ASCII part used here). -/
def isWsChar (c : Char) : Bool :=
  c == ' ' || c == '\t' || c == '\n' || c == '\r' || c == '\x0b' || c == '\x0c'

/-- Word-character test for the JavaScript regex class backslash-w: ASCII letters, digits, underscore. -/
def isWordChar (c : Char) : Bool :=
  c.isAlpha || c.isDigit || c == '_'

/-- Pattern (second argument) is a prefix of the list. -/
def listStarts : List Char → List Char → Bool
  | _, [] => true
  | [], _ :: _ => false
  | c :: l, p :: ps => c == p && listStarts l ps

/-- Pattern occurs somewhere in the list. -/
def hasSub (pat : List Char) : List Char → Bool
  | [] => listStarts [] pat
  | l@(_ :: t) => listStarts l pat || hasSub pat t

/-- Index of the earliest occurrence of the pattern. -/
def findSubIdx (pat : List Char) : List Char → Option Nat
  | [] => none
  | l@(_ :: r) => if listStarts l pat then some 0 else (findSubIdx pat r).map (· + 1)

/-- Global literal replacement, as `String.prototype.replace` with a global
regex of a literal pattern: leftmost matches, no overlap, scanning resumes
after each replacement.  Fuel is the length of the list plus one. -/
def replaceAllGo (pat repl : List Char) : Nat → List Char → List Char
  | 0, l => l
  | _ + 1, [] => []
  | f + 1, c :: l =>
    if listStarts (c :: l) pat && !pat.isEmpty then
      repl ++ replaceAllGo pat repl f ((c :: l).drop pat.length)
    else
      c :: replaceAllGo pat repl f l

def replaceAll (pat repl l : List Char) : List Char :=
  replaceAllGo pat repl (l.length + 1) l

/-- JavaScript `String.prototype.trim`: strip whitespace from both ends. -/
def trimWs (l : List Char) : List Char :=
  ((l.dropWhile isWsChar).reverse.dropWhile isWsChar).reverse

/-- JavaScript `String.prototype.split(',')`: always at least one piece. -/
def splitCommaGo : Nat → List Char → List Char → List (List Char)
  | 0, acc, _ => [acc.reverse]
  | _ + 1, acc, [] => [acc.reverse]
  | f + 1, acc, c :: r =>
    if c == ',' then acc.reverse :: splitCommaGo f [] r
    else splitCommaGo f (c :: acc) r

def splitComma (l : List Char) : List (List Char) := splitCommaGo (l.length + 1) [] l

/-- `Map.prototype.get` on an association list. -/
def lookupStr {α : Type} : List (String × α) → String → Option α
  | [], _ => none
  | (k', v) :: r, k => if k' == k then some v else lookupStr r k

/-- `Map.prototype.set`: update in place, or append a new entry. -/
def upsertStr {α : Type} : List (String × α) → String → α → List (String × α)
  | [], k, v => [(k, v)]
  | (k', v') :: r, k, v =>
    if k' == k then (k', v) :: r else (k', v') :: upsertStr r k v

/-- `map.set(key, (map.get(key) or 0) + 1)` of the failed-component tally. -/
def bumpCount (l : List (String × Nat)) (k : String) : List (String × Nat) :=
  upsertStr l k ((lookupStr l k).getD 0 + 1)

/-- A prop value as propagated at run time: attribute values are strings;
`parseLoops` additionally accepts an already-structured array
(`Array.isArray` branch). -/
inductive PropVal where
  | str (s : String)
  | arr (elems : List String)
deriving DecidableEq

/-- JavaScript string coercion of a prop value (template-literal semantics:
arrays join with commas). -/
def jsToString : PropVal → String
  | .str s => s
  | .arr es => String.intercalate "," es

/-! ### Loops: `FOR_REGEX` and `parseLoops` -/

def forOpenLit : List Char := ['\x7b', '%', ' ', 'f', 'o', 'r']
def endforLit : List Char :=
  ['\x7b', '%', ' ', 'e', 'n', 'd', 'f', 'o', 'r', ' ', '%', '\x7d']

/-- Matcher for `FOR_REGEX` anchored at the head of the list:
literal `percent-for`, one or more whitespace, a word (the item), whitespace,
`in`, whitespace, a word (the list prop), optional whitespace, the closing
delimiter, then the lazily-matched body up to the earliest literal
`endfor` delimiter.  Returns (item, list name, body, rest after endfor). -/
def matchForAt (l : List Char) : Option (List Char × List Char × List Char × List Char) :=
  if listStarts l forOpenLit then
    let r0 := l.drop 6
    let ws1 := r0.takeWhile isWsChar
    if ws1.isEmpty then none else
    let r1 := r0.drop ws1.length
    let item := r1.takeWhile isWordChar
    if item.isEmpty then none else
    let r2 := r1.drop item.length
    let ws2 := r2.takeWhile isWsChar
    if ws2.isEmpty then none else
    let r3 := r2.drop ws2.length
    if listStarts r3 ['i', 'n'] then
      let r4 := r3.drop 2
      let ws3 := r4.takeWhile isWsChar
      if ws3.isEmpty then none else
      let r5 := r4.drop ws3.length
      let lst := r5.takeWhile isWordChar
      if lst.isEmpty then none else
      let r6 := (r5.drop lst.length).dropWhile isWsChar
      if listStarts r6 ['%', '\x7d'] then
        let r7 := r6.drop 2
        match findSubIdx endforLit r7 with
        | some k => some (item, lst, r7.take k, r7.drop (k + endforLit.length))
        | none => none
      else none
    else none
  else none

/-- One loop expansion: for each element substitute every literal
`double-brace item double-brace` occurrence in the body and concatenate
(`join('')`). -/
def loopExpand (item block : List Char) (vals : List (List Char)) : List Char :=
  (vals.map (fun v => replaceAll ('\x7b' :: '\x7b' :: item ++ ['\x7d', '\x7d']) v block)).flatten

/-- The body of the `parseLoops` replace callback: resolve the list prop
(`props.get(list)`); an unbound prop throws (`undefined.split` TypeError);
an array iterates directly; otherwise the string value splits on commas. -/
def loopBody (props : List (String × PropVal)) (lst item block : List Char) :
    Except Unit (List Char) :=
  match lookupStr props (String.mk lst) with
  | none => .error ()
  | some v =>
    let vals := match v with
      | .arr es => es.map String.data
      | .str s => splitComma s.data
    .ok (loopExpand item block vals)

def loopScanGo (props : List (String × PropVal)) : Nat → List Char → Except Unit (List Char)
  | 0, _ => .error ()
  | _ + 1, [] => .ok []
  | f + 1, c :: r =>
    match matchForAt (c :: r) with
    | none => do
      let out ← loopScanGo props f r
      .ok (c :: out)
    | some (item, lst, block, rest) => do
      let rep ← loopBody props lst item block
      let out ← loopScanGo props f rest
      .ok (rep ++ out)

/-- `parseLoops(content, props)`. -/
def parseLoops (content : String) (props : List (String × PropVal)) : Except Unit String := do
  let out ← loopScanGo props (content.data.length + 1) content.data
  .ok (String.mk out)

/-! ### Conditionals: `CONDITIONAL_REGEX`, `generateEvaluateCondition`, `parseConditionals` -/

/-- Scanner for a single-quoted JavaScript string literal whose body is the
given characters: `generateEvaluateCondition` splices the raw condition
between single quotes in the generated source, so a condition containing a
bare single quote (or a trailing backslash that escapes the closing quote)
breaks the literal and, for the directive-shaped conditions considered
here, makes `new Function` throw a SyntaxError at construction time,
outside any try/catch. -/
def singleQuoteLitOk : List Char → Bool
  | [] => true
  | '\\' :: [] => false
  | '\\' :: _ :: r => singleQuoteLitOk r
  | c :: r => if c == '\x27' then false else singleQuoteLitOk r

/-- Run-time value of the embedded single-quoted literal: JavaScript escape
processing (unknown escapes denote the escaped character itself). -/
def unescapeSQ : List Char → List Char
  | [] => []
  | '\\' :: [] => []
  | '\\' :: c :: r =>
    (if c == 'n' then '\n' else if c == 't' then '\t' else if c == 'r' then '\r' else c)
      :: unescapeSQ r
  | c :: r => c :: unescapeSQ r

/-- The generated function's replace step: every maximal word-character run
that names a bound prop is replaced by the prop's value wrapped in double
quotes; unbound words stay. -/
def substWordsGo (props : List (String × PropVal)) : Nat → List Char → List Char
  | 0, l => l
  | _ + 1, [] => []
  | f + 1, c :: r =>
    if isWordChar c then
      let w := (c :: r).takeWhile isWordChar
      let rest := (c :: r).drop w.length
      (match lookupStr props (String.mk w) with
        | some v => '\x22' :: (jsToString v).data ++ ['\x22']
        | none => w) ++ substWordsGo props f rest
    else c :: substWordsGo props f r

def substWords (props : List (String × PropVal)) (l : List Char) : List Char :=
  substWordsGo props (l.length + 1) l

/-- Parse a double-quoted string literal at the head; returns (body, rest). -/
def parseStrLit (l : List Char) : Option (List Char × List Char) :=
  match l with
  | '\x22' :: r =>
    let s := r.takeWhile (fun c => !(c == '\x22'))
    let r2 := r.drop s.length
    (match r2 with
     | '\x22' :: rest => some (s, rest)
     | _ => none)
  | _ => none

/-- Safe evaluator for the substituted condition, standing in for the inner
`new Function('return ' + expr)()` call (the spec directs that the
host-language evaluator be reproduced by a safe expression evaluator over
the substituted literals).  It covers the expression forms the directive
grammar produces — a double-quoted literal, optionally compared with `==`
to another double-quoted literal — with JavaScript truthiness for a bare
string.  Any other form evaluates as a failure (`none`), which the
generated try/catch turns into `false`. -/
def jsEvalExpr (l : List Char) : Option Bool :=
  match parseStrLit (l.dropWhile isWsChar) with
  | none => none
  | some (s, r) =>
    match r.dropWhile isWsChar with
    | [] => some (!s.isEmpty)
    | '=' :: '=' :: r2 =>
      (match parseStrLit (r2.dropWhile isWsChar) with
       | none => none
       | some (t, r3) =>
         if (r3.dropWhile isWsChar).isEmpty then some (s == t) else none)
    | _ => none

/-- `generateEvaluateCondition(condition)` followed by applying the produced
function: `none` models the SyntaxError thrown while constructing the
evaluator (it propagates to the caller); `some b` is the truthiness of the
evaluated condition, with every failure inside the generated try/catch
collapsed to `false`. -/
def evaluateCondition (cond : List Char) (props : List (String × PropVal)) : Option Bool :=
  if singleQuoteLitOk cond then
    some ((jsEvalExpr (substWords props (unescapeSQ cond))).getD false)
  else none

/-- Earliest close paren with no intervening newline (the lazy dot of the
condition captures excludes newlines); returns (before, after). -/
def nextParenSplit : List Char → Option (List Char × List Char)
  | [] => none
  | c :: r =>
    if c == ')' then some ([], r)
    else if c == '\n' then none
    else
      match nextParenSplit r with
      | some (a, b) => some (c :: a, b)
      | none => none

/-- Matcher for the `endif` delimiter at the head; returns consumed length. -/
def matchEndifAt (l : List Char) : Option Nat :=
  if listStarts l ['\x7b', '%'] then
    let r1 := (l.drop 2).dropWhile isWsChar
    if listStarts r1 ['e', 'n', 'd', 'i', 'f'] then
      let r2 := (r1.drop 5).dropWhile isWsChar
      if listStarts r2 ['%', '\x7d'] then some (l.length - (r2.length - 2))
      else none
    else none
  else none

/-- Earliest position (and length) at which a matcher succeeds. -/
def findMatchIdx (m : List Char → Option Nat) : Nat → List Char → Option (Nat × Nat)
  | 0, _ => none
  | _ + 1, [] => none
  | f + 1, l@(_ :: r) =>
    match m l with
    | some len => some (0, len)
    | none => (findMatchIdx m f r).map (fun p => (p.1 + 1, p.2))

/-- Lazy search for the close paren of the `if` condition: each candidate
close paren is accepted only if optional whitespace and the block close
delimiter follow and an `endif` delimiter occurs later; otherwise the lazy
condition extends past it.  Returns (condition, block, rest after endif). -/
def ifCloseGo : Nat → List Char → List Char → Option (List Char × List Char × List Char)
  | 0, _, _ => none
  | f + 1, acc, l =>
    match nextParenSplit l with
    | none => none
    | some (seg, after) =>
      let cond := acc ++ seg
      let a1 := after.dropWhile isWsChar
      if listStarts a1 ['%', '\x7d'] then
        let body := a1.drop 2
        match findMatchIdx matchEndifAt (body.length + 1) body with
        | some (j, len) => some (cond, body.take j, body.drop (j + len))
        | none => ifCloseGo f (cond ++ [')']) after
      else ifCloseGo f (cond ++ [')']) after

/-- Matcher for `CONDITIONAL_REGEX` anchored at the head. -/
def matchIfAt (l : List Char) : Option (List Char × List Char × List Char) :=
  if listStarts l ['\x7b', '%'] then
    let r1 := (l.drop 2).dropWhile isWsChar
    if listStarts r1 ['i', 'f'] then
      let r2 := (r1.drop 2).dropWhile isWsChar
      match r2 with
      | '(' :: r3 => ifCloseGo (r3.length + 1) [] r3
      | _ => none
    else none
  else none

/-- Close-paren search for the `elif`/`else` boundary regex's optional
parenthesised group; returns rest after the close delimiter. -/
def elifElseCloseGo : Nat → List Char → Option (List Char)
  | 0, _ => none
  | f + 1, l =>
    match nextParenSplit l with
    | none => none
    | some (_, after) =>
      let a1 := after.dropWhile isWsChar
      if listStarts a1 ['%', '\x7d'] then some (a1.drop 2)
      else elifElseCloseGo f after

/-- Matcher for the split regex of the branch boundaries
(`elif` or `else`, optional condition group); returns rest after the match. -/
def matchElifElseAt (l : List Char) : Option (List Char) :=
  if listStarts l ['\x7b', '%'] then
    let r1 := (l.drop 2).dropWhile isWsChar
    if listStarts r1 ['e', 'l', 'i', 'f'] || listStarts r1 ['e', 'l', 's', 'e'] then
      let r2 := (r1.drop 4).dropWhile isWsChar
      match r2 with
      | '(' :: r3 => elifElseCloseGo (r3.length + 1) r3
      | _ => if listStarts r2 ['%', '\x7d'] then some (r2.drop 2) else none
    else none
  else none

/-- `block.split(elif-else regex)`. -/
def elifElseSplitGo : Nat → List Char → List Char → List (List Char)
  | 0, acc, l => [acc.reverse ++ l]
  | _ + 1, acc, [] => [acc.reverse]
  | f + 1, acc, l@(c :: r) =>
    match matchElifElseAt l with
    | some rest => acc.reverse :: elifElseSplitGo f [] rest
    | none => elifElseSplitGo f (c :: acc) r

/-- Close-paren search for an `elif` condition match; returns the full lazy
condition and the rest after the close delimiter. -/
def elifCondCloseGo : Nat → List Char → List Char → Option (List Char × List Char)
  | 0, _, _ => none
  | f + 1, acc, l =>
    match nextParenSplit l with
    | none => none
    | some (seg, after) =>
      let cond := acc ++ seg
      let a1 := after.dropWhile isWsChar
      if listStarts a1 ['%', '\x7d'] then some (cond, a1.drop 2)
      else elifCondCloseGo f (cond ++ [')']) after

/-- Matcher for one `elif` condition: the global `elif` collection regex
followed by the re-extraction `.match(paren group)[1]`, which cuts the
matched text at its first close paren. -/
def matchElifCondOnlyAt (l : List Char) : Option (List Char × List Char) :=
  if listStarts l ['\x7b', '%'] then
    let r1 := (l.drop 2).dropWhile isWsChar
    if listStarts r1 ['e', 'l', 'i', 'f'] then
      let r2 := (r1.drop 4).dropWhile isWsChar
      match r2 with
      | '(' :: r3 =>
        (match elifCondCloseGo (r3.length + 1) [] r3 with
         | some (cond, rest) => some (cond.takeWhile (fun c => !(c == ')')), rest)
         | none => none)
      | _ => none
    else none
  else none

/-- All `elif` conditions of a block, in order. -/
def elifCondsGo : Nat → List Char → List (List Char)
  | 0, _ => []
  | _ + 1, [] => []
  | f + 1, l@(_ :: r) =>
    match matchElifCondOnlyAt l with
    | some (cond, rest) => cond :: elifCondsGo f rest
    | none => elifCondsGo f r

/-- The branch loop of the conditional replace callback: conditions in
declaration order against their aligned sections; the first truthy one
emits its section trimmed; a construction SyntaxError propagates; if no
condition holds, a leftover section (the block had an `else`, or more
boundaries than conditions) emits the final section trimmed, else the
empty string. -/
def condLoop (props : List (String × PropVal)) :
    List (List Char) → List (List Char) → Except Unit (List Char)
  | [], remSections =>
    .ok (match remSections.getLast? with
      | some s => trimWs s
      | none => [])
  | c :: cs, sections =>
    match evaluateCondition c props with
    | none => .error ()
    | some true =>
      (match sections with
       | [] => .error ()
       | s :: _ => .ok (trimWs s))
    | some false => condLoop props cs sections.tail

/-- The replace callback of `parseConditionals` for one matched block. -/
def condReplace (props : List (String × PropVal)) (cond block : List Char) :
    Except Unit (List Char) :=
  condLoop props (cond :: elifCondsGo (block.length + 1) block)
    (elifElseSplitGo (block.length + 1) [] block)

def condScanGo (props : List (String × PropVal)) : Nat → List Char → Except Unit (List Char)
  | 0, _ => .error ()
  | _ + 1, [] => .ok []
  | f + 1, c :: r =>
    match matchIfAt (c :: r) with
    | none => do
      let out ← condScanGo props f r
      .ok (c :: out)
    | some (cond, block, rest) => do
      let rep ← condReplace props cond block
      let out ← condScanGo props f rest
      .ok (rep ++ out)

/-- `parseConditionals(content, props)`. -/
def parseConditionals (content : String) (props : List (String × PropVal)) :
    Except Unit String := do
  let out ← condScanGo props (content.data.length + 1) content.data
  .ok (String.mk out)

/-! ### Attribute parser: `ATTR_REGEX` -/

/-- Matcher for `ATTR_REGEX` anchored at the head: a word, at most one
whitespace character, an equals sign, at most one whitespace character,
then a double-quoted value with no quote inside.  Returns
(name, value, rest). -/
def eatOneWsThen (target : Char) (l : List Char) : Option (List Char) :=
  match l with
  | [] => none
  | c :: r =>
    if c == target then some r
    else if isWsChar c then
      (match r with
       | c2 :: r2 => if c2 == target then some r2 else none
       | [] => none)
    else none

def attrTryMatch (l : List Char) : Option (List Char × List Char × List Char) :=
  let w := l.takeWhile isWordChar
  if w.isEmpty then none
  else
    match eatOneWsThen '=' (l.drop w.length) with
    | none => none
    | some t =>
      match eatOneWsThen '\x22' t with
      | none => none
      | some u =>
        let v := u.takeWhile (fun c => !(c == '\x22'))
        (match u.drop v.length with
         | '\x22' :: rest => some (w, v, rest)
         | _ => none)

/-- The `ATTR_REGEX.exec` loop: collect every match into the props object
(later duplicates overwrite); non-matching text is skipped. -/
def attrScanGo : Nat → List Char → List (String × String) → List (String × String)
  | 0, _, acc => acc
  | _ + 1, [], acc => acc
  | f + 1, l@(_ :: r), acc =>
    match attrTryMatch l with
    | some (n, v, rest) => attrScanGo f rest (upsertStr acc (String.mk n) (String.mk v))
    | none => attrScanGo f r acc

def parseAttributes (s : String) : List (String × String) :=
  attrScanGo (s.data.length + 1) s.data []

/-! ### Tag scanner: `COMPONENT_REGEX`, `COMMENT_REGEX`, placeholders -/

def VOID_TAGS : List String :=
  ["area", "base", "br", "col", "embed", "hr", "img", "input", "link",
   "menuitem", "meta", "param", "source", "track", "wbr", "path"]

/-- Character class of `COMPONENT_REGEX` tag names: letters, digits,
underscore, forward slash. -/
def isNameChar (c : Char) : Bool :=
  c.isAlpha || c.isDigit || c == '_' || c == '/'

/-- Matcher for `COMPONENT_REGEX` anchored at the head: an open angle
bracket, then the segment up to the first close angle bracket, which must
exist, start with at least one name character, and end with a slash (the
explicitly matched self-closing slash).  The greedy name capture is the
maximal name-character prefix, backed off by one when it would swallow the
final slash.  Returns (matched text, name, attribute text, rest). -/
def tagTryMatch (l : List Char) : Option (List Char × List Char × List Char × List Char) :=
  match l with
  | '<' :: r =>
    let seg := r.takeWhile (fun c => !(c == '>'))
    (match r.drop seg.length with
     | '>' :: after =>
       (match seg.getLast? with
        | some '/' =>
          let p := seg.takeWhile isNameChar
          if p.isEmpty then none
          else
            let nm := if p.length == seg.length then seg.dropLast else p
            if nm.isEmpty then none
            else some ('<' :: seg ++ ['>'], nm, (seg.drop nm.length).dropLast, after)
        | _ => none)
     | _ => none)
  | _ => none

/-- The tag scanner finds no match at any position of the list. -/
def noTagMatch : List Char → Bool
  | [] => true
  | l@(_ :: r) => (tagTryMatch l).isNone && noTagMatch r

def commentOpenPat : List Char := ['<', '!', '-', '-']
def commentClosePat : List Char := ['-', '-', '>']

def natDigits (n : Nat) : List Char := (Nat.repr n).data

def placeholderFor (i : Nat) : List Char :=
  "<!--COMMENT_PLACEHOLDER_".data ++ natDigits i ++ commentClosePat

/-- The `COMMENT_REGEX` replace pass: each lazily-matched comment is pushed
and replaced with its positional placeholder.  Returns the rewritten text
and the pushed comments in order. -/
def commentExtractGo : Nat → Nat → List Char → (List Char × List (List Char))
  | 0, _, l => (l, [])
  | _ + 1, _, [] => ([], [])
  | f + 1, i, l@(c :: r) =>
    if listStarts l commentOpenPat then
      match findSubIdx commentClosePat (l.drop 4) with
      | some k =>
        let matched := l.take (4 + k + 3)
        let rec2 := commentExtractGo f (i + 1) (l.drop (4 + k + 3))
        (placeholderFor i ++ rec2.1, matched :: rec2.2)
      | none =>
        let rec2 := commentExtractGo f i r
        (c :: rec2.1, rec2.2)
    else
      let rec2 := commentExtractGo f i r
      (c :: rec2.1, rec2.2)

def restorePat : List Char := "<!--COMMENT_PLACEHOLDER_".data

def digitsToNat (ds : List Char) : Nat :=
  ds.foldl (fun a c => a * 10 + (c.toNat - 48)) 0

/-- The placeholder-restoration replace pass; an out-of-range index inserts
the text `undefined`, as JavaScript string coercion would. -/
def restoreGo (cmts : List (List Char)) : Nat → List Char → List Char
  | 0, l => l
  | _ + 1, [] => []
  | f + 1, l@(c :: r) =>
    if listStarts l restorePat then
      let after := l.drop restorePat.length
      let ds := after.takeWhile Char.isDigit
      if ds.isEmpty then c :: restoreGo cmts f r
      else
        let after2 := after.drop ds.length
        if listStarts after2 commentClosePat then
          cmts.getD (digitsToNat ds) "undefined".data ++ restoreGo cmts f (after2.drop 3)
        else c :: restoreGo cmts f r
    else c :: restoreGo cmts f r

/-! ### Parser state and the component resolver -/

/-- The mutable state of one `ComponentParser` instance that the resolver
touches: the Component Store, the Expansion Cache, and the
failed-resolution tally. -/
structure St where
  components : List (String × String)
  templateCache : List (String × String)
  failedComponents : List (String × Nat)
deriving DecidableEq

/-- `JSON.stringify` on a string-valued props object (insertion order;
quote and backslash escaping — attribute-derived values cannot contain a
double quote, and control-character escaping is not modelled). -/
def jsonEscape (s : List Char) : List Char :=
  s.flatMap (fun c => if c == '\x22' || c == '\\' then ['\\', c] else [c])

def jsonStringify (props : List (String × String)) : String :=
  "\x7b" ++ String.intercalate ","
    (props.map (fun kv =>
      "\x22" ++ String.mk (jsonEscape kv.1.data) ++ "\x22:\x22"
        ++ String.mk (jsonEscape kv.2.data) ++ "\x22")) ++ "\x7d"

/-- The Expansion Cache key: component name, dash, serialized props. -/
def cacheKey (nm : String) (props : List (String × String)) : String :=
  nm ++ "-" ++ jsonStringify props

/-- Literal prop substitution: for each prop replace every
`double-brace key double-brace` occurrence with the value. -/
def substProps (template : String) (props : List (String × String)) : String :=
  props.foldl
    (fun acc kv =>
      String.mk (replaceAll ('\x7b' :: '\x7b' :: kv.1.data ++ ['\x7d', '\x7d'])
        kv.2.data acc.data))
    template

def bumpFailed (st : St) (k : String) : St :=
  { st with failedComponents := bumpCount st.failedComponents k }

def setCache (st : St) (k v : String) : St :=
  { st with templateCache := upsertStr st.templateCache k v }

def failedCount (st : St) (k : String) : Nat :=
  (lookupStr st.failedComponents k).getD 0

/-- The trace-comment wrapper around a resolved fragment. -/
def wrapFragment (nm body : String) : String :=
  "\n<!-- Component components/" ++ nm ++ " -->\n" ++ body
    ++ "\n<!-- End component components/" ++ nm ++ " -->\n"

/-- The `COMPONENT_REGEX` replace pass with its stateful callback: void
tags are kept; otherwise attributes are parsed and the resolver is
invoked; a null (or empty, by JavaScript falsiness) result keeps the
original tag text. -/
def tagScanGo (render : St → String → List (String × String) → Except Unit (Option String × St)) :
    Nat → St → List Char → Except Unit (List Char × St)
  | 0, _, _ => .error ()
  | _ + 1, st, [] => .ok ([], st)
  | f + 1, st, l@(c :: r) =>
    match tagTryMatch l with
    | none => do
      let os ← tagScanGo render f st r
      .ok (c :: os.1, os.2)
    | some (mtxt, nm, attrs, rest) =>
      if VOID_TAGS.contains (String.mk nm) then do
        let os ← tagScanGo render f st rest
        .ok (mtxt ++ os.1, os.2)
      else do
        let rs ← render st (String.mk nm) (parseAttributes (String.mk attrs))
        let rep := match rs.1 with
          | some s => if s.isEmpty then mtxt else s.data
          | none => mtxt
        let os ← tagScanGo render f rs.2 rest
        .ok (rep ++ os.1, os.2)

/-- `parseComponentTags(content, from)` around a given resolver: extract
comments, scan for component tags, restore comments. -/
def pctF (render : St → String → List (String × String) → Except Unit (Option String × St))
    (st : St) (content : String) : Except Unit (String × St) :=
  let cs := content.data
  let ec := commentExtractGo (cs.length + 1) 0 cs
  do
    let os ← tagScanGo render (ec.1.length + 1) st ec.1
    .ok (String.mk (restoreGo ec.2 (os.1.length + 1) os.1), os.2)

/-- `renderComponent(componentName, props, from)` around the
parseComponentTags of the next recursion level: cache check, store lookup
(a miss warns, tallies and returns null), prop substitution, conditional
and loop passes, recursive tag scan, trace wrapping, cache store. -/
def renderComponentF (pctPrev : St → String → Except Unit (String × St)) (st : St)
    (nm : String) (props : List (String × String)) (origin : String) :
    Except Unit (Option String × St) :=
  match lookupStr st.templateCache (cacheKey nm props) with
  | some v => .ok (some v, st)
  | none =>
    match lookupStr st.components nm with
    | none => .ok (none, bumpFailed st (nm ++ "|" ++ origin))
    | some template =>
      match parseConditionals (substProps template props)
          (props.map (fun kv => (kv.1, PropVal.str kv.2))) with
      | .error e => .error e
      | .ok t2 =>
        match parseLoops t2 (props.map (fun kv => (kv.1, PropVal.str kv.2))) with
        | .error e => .error e
        | .ok t3 =>
          match pctPrev st t3 with
          | .error e => .error e
          | .ok (t4, st') =>
            .ok (some (wrapFragment nm t4),
              setCache st' (cacheKey nm props) (wrapFragment nm t4))

/-- `parseComponentTags` at a given recursion depth: fuel exhaustion models
the unbounded recursive self-inclusion hitting the stack limit. -/
def pct : Nat → St → String → String → Except Unit (String × St)
  | 0, _, _, _ => .error ()
  | n + 1, st, content, origin =>
    pctF (fun st' nm props => renderComponentF (fun st'' c => pct n st'' c origin) st' nm props origin)
      st content

/-- `renderComponent` at a given recursion depth. -/
def renderComponent (fuel : Nat) (st : St) (nm : String) (props : List (String × String))
    (origin : String) : Except Unit (Option String × St) :=
  match fuel with
  | 0 => .error ()
  | n + 1 => renderComponentF (fun st' c => pct n st' c origin) st nm props origin

/-! ### Directory traversal: `findHtmlFiles`, `copyDirectoryContents` -/

/-- An abstract file tree entry. -/
inductive FsEntry where
  | file (nm : String)
  | dir (nm : String) (children : List FsEntry)

/-- `path.extname(file) === '.html'` (a lone leading dot is not an
extension). -/
def extnameIsHtml (nm : String) : Bool :=
  match lastDotIdx nm.data with
  | some i => if i == 0 then false else nm.data.drop i == ['.', 'h', 't', 'm', 'l']
  | none => false
where
  lastDotIdx : List Char → Option Nat
    | [] => none
    | c :: r =>
      match lastDotIdx r with
      | some i => some (i + 1)
      | none => if c == '.' then some 0 else none

/-- `path.basename(file, '.html')`. -/
def basenameNoHtml (nm : String) : String :=
  let cs := nm.data
  if 5 < cs.length && decide (cs.drop (cs.length - 5) = ['.', 'h', 't', 'm', 'l']) then
    String.mk (cs.take (cs.length - 5))
  else nm

/-- `currentDepth >= this.depth`, where a missing depth is `Infinity`. -/
def depthHit (dep : Option Nat) (cur : Nat) : Bool :=
  match dep with
  | none => false
  | some d => d ≤ cur

/-- The `names` filter: absent means every file. -/
def nameSelected (names : Option (List String)) (nm : String) : Bool :=
  match names with
  | none => true
  | some ns => ns.contains (basenameNoHtml nm)

/-- `findHtmlFiles(dir, currentDepth)` over an abstract tree: html files
reachable within the depth budget, as paths (directory names then file
name).  Fuel bounds the tree height. -/
def findHtmlFiles (dep : Option Nat) (names : Option (List String)) :
    Nat → Nat → List FsEntry → List (List String)
  | 0, _, _ => []
  | f + 1, cur, entries =>
    if depthHit dep cur then []
    else
      entries.flatMap (fun e =>
        match e with
        | .file nm => if extnameIsHtml nm && nameSelected names nm then [[nm]] else []
        | .dir nm cs => (findHtmlFiles dep names f (cur + 1) cs).map (nm :: ·))

/-- `copyDirectoryContents(sourceDir, targetDir, currentDepth)` over an
abstract tree: the files copied into the output, as paths. -/
def copyDirectoryContents (dep : Option Nat) : Nat → Nat → List FsEntry → List (List String)
  | 0, _, _ => []
  | f + 1, cur, entries =>
    if depthHit dep cur then []
    else
      entries.flatMap (fun e =>
        match e with
        | .file nm => [[nm]]
        | .dir nm cs => (copyDirectoryContents dep f (cur + 1) cs).map (nm :: ·))

/-! ## Helper lemmas -/

theorem lookupStr_upsertStr_self {α : Type} (l : List (String × α)) (k : String) (v : α) :
    lookupStr (upsertStr l k v) k = some v := by
  induction l with
  | nil => simp [upsertStr, lookupStr]
  | cons kv r ih =>
    obtain ⟨k', v'⟩ := kv
    by_cases hk : (k' == k) = true
    · simp [upsertStr, hk, lookupStr]
    · simp only [Bool.not_eq_true] at hk
      simp [upsertStr, hk, lookupStr, ih]

theorem failedCount_bumpFailed (st : St) (k : String) :
    failedCount (bumpFailed st k) k = failedCount st k + 1 := by
  simp [failedCount, bumpFailed, bumpCount, lookupStr_upsertStr_self]

theorem listStarts_of_append (l p q : List Char) (h : listStarts l (p ++ q) = true) :
    listStarts l p = true := by
  induction p generalizing l with
  | nil => simp [listStarts]
  | cons a p ih =>
    cases l with
    | nil => simp [listStarts] at h
    | cons c r =>
      simp only [List.cons_append, listStarts, Bool.and_eq_true] at h ⊢
      exact ⟨h.1, ih r h.2⟩

/-! ## C4: malformed condition handling -/

/-- C4: the claim states that for every conditional block and props scope a
malformed or unevaluable condition yields false and never raises to the
caller of parseConditionals, for all condition strings including those with
quote or backslash characters.  The code violates this: the condition is
spliced between single quotes in the source handed to `new Function`, so a
condition containing a quote makes construction throw a SyntaxError outside
the try/catch, and the exception propagates out of parseConditionals.  A
quote-free malformed condition is indeed contained and treated as false. -/
theorem C4_quote_condition_throws :
    parseConditionals "\x7b% if (it\x27s) %\x7dA\x7b% endif %\x7d" [] = .error () ∧
    parseConditionals "\x7b% if (x ==) %\x7dA\x7b% endif %\x7d" [] = .ok "" := by
  exact ⟨rfl, rfl⟩

/-! ## C5: conditional branch selection -/

/-- C5: conditions are tried in declaration order and the first truthy
condition's body, trimmed, is emitted; with none truthy the else body (or
empty string) is emitted.  On the claim's template, page login gives B,
page other gives C, page main gives A. -/
theorem C5_conditional_order :
    parseConditionals
      "\x7b% if (page == \x22main\x22) %\x7dA\x7b% elif (page == \x22login\x22) %\x7dB\x7b% else %\x7dC\x7b% endif %\x7d"
      [("page", PropVal.str "login")] = .ok "B" ∧
    parseConditionals
      "\x7b% if (page == \x22main\x22) %\x7dA\x7b% elif (page == \x22login\x22) %\x7dB\x7b% else %\x7dC\x7b% endif %\x7d"
      [("page", PropVal.str "other")] = .ok "C" ∧
    parseConditionals
      "\x7b% if (page == \x22main\x22) %\x7dA\x7b% elif (page == \x22login\x22) %\x7dB\x7b% else %\x7dC\x7b% endif %\x7d"
      [("page", PropVal.str "main")] = .ok "A" := by
  exact ⟨rfl, rfl, rfl⟩

/-! ## C7: loop expansion -/

/-- C7: a for directive iterates an already-structured sequence directly
and otherwise splits the string value on commas; each element replaces
every item placeholder in the body and the results concatenate in order
with no separator.  The claim's template with items a,b,c yields the three
bracketed elements; an array-valued prop iterates directly. -/
theorem C7_loop_expansion :
    parseLoops "\x7b% for x in items %\x7d[\x7b\x7bx\x7d\x7d]\x7b% endfor %\x7d"
      [("items", PropVal.str "a,b,c")] = .ok "[a][b][c]" ∧
    parseLoops "\x7b% for x in items %\x7d[\x7b\x7bx\x7d\x7d]\x7b% endfor %\x7d"
      [("items", PropVal.arr ["p", "q"])] = .ok "[p][q]" := by
  exact ⟨rfl, rfl⟩

/-! ## C3: depth limiting -/

theorem findHtmlFiles_depth1_deep (names : Option (List String)) (f cur : Nat)
    (cs : List FsEntry) (hc : 1 ≤ cur) :
    findHtmlFiles (some 1) names f cur cs = [] := by
  cases f with
  | zero => rfl
  | succ g => simp [findHtmlFiles, depthHit, hc]

theorem copyDir_depth1_deep (f cur : Nat) (cs : List FsEntry) (hc : 1 ≤ cur) :
    copyDirectoryContents (some 1) f cur cs = [] := by
  cases f with
  | zero => rfl
  | succ g => simp [copyDirectoryContents, depthHit, hc]

theorem findHtmlFiles_depth1_shape (names : Option (List String)) (f : Nat)
    (es : List FsEntry) :
    findHtmlFiles (some 1) names (f + 1) 0 es =
      es.flatMap (fun e =>
        match e with
        | .file nm => if extnameIsHtml nm && nameSelected names nm then [[nm]] else []
        | .dir _ _ => []) := by
  simp only [findHtmlFiles, depthHit]
  norm_num
  apply List.flatMap_congr
  intro e _
  cases e with
  | file nm => rfl
  | dir nm cs => simp [findHtmlFiles_depth1_deep names f 1 cs (by omega)]

theorem copyDir_depth1_shape (f : Nat) (es : List FsEntry) :
    copyDirectoryContents (some 1) (f + 1) 0 es =
      es.flatMap (fun e =>
        match e with
        | .file nm => [[nm]]
        | .dir _ _ => []) := by
  simp only [copyDirectoryContents, depthHit]
  norm_num
  apply List.flatMap_congr
  intro e _
  cases e with
  | file nm => rfl
  | dir nm cs => simp [copyDir_depth1_deep f 1 cs (by omega)]

/-- C3 counterexample: with maximum traversal depth 1, the claim predicts
that a file one directory below the root is still processed and that
deeper files are still copied verbatim.  On the concrete tree with
`a.html` at the root and `sub/b.html` one directory below, `sub/b.html` is
neither found for processing nor copied, though without a depth limit it
is an html file the walk does find. -/
theorem C3_counterexample :
    ["sub", "b.html"] ∉
      findHtmlFiles (some 1) none 10 0 [.file "a.html", .dir "sub" [.file "b.html"]] ∧
    ["sub", "b.html"] ∉
      copyDirectoryContents (some 1) 10 0 [.file "a.html", .dir "sub" [.file "b.html"]] ∧
    ["sub", "b.html"] ∈
      findHtmlFiles none none 10 0 [.file "a.html", .dir "sub" [.file "b.html"]] ∧
    ["a.html"] ∈
      findHtmlFiles (some 1) none 10 0 [.file "a.html", .dir "sub" [.file "b.html"]] := by
  decide

/-- C3 amended: with maximum traversal depth 1, only files directly at the
source root are processed and copied; every file in a subdirectory (one or
more levels below the root) is excluded from html processing and is not
copied either. -/
theorem C3_amended_depth1 (es : List FsEntry) (f : Nat) (names : Option (List String)) :
    (∀ p ∈ findHtmlFiles (some 1) names (f + 1) 0 es, ∃ n, p = [n]) ∧
    (∀ n, FsEntry.file n ∈ es → (extnameIsHtml n && nameSelected names n) = true →
      [n] ∈ findHtmlFiles (some 1) names (f + 1) 0 es) ∧
    (∀ p ∈ copyDirectoryContents (some 1) (f + 1) 0 es, ∃ n, p = [n]) ∧
    (∀ n, FsEntry.file n ∈ es → [n] ∈ copyDirectoryContents (some 1) (f + 1) 0 es) := by
  refine ⟨?_, ?_, ?_, ?_⟩
  · intro p hp
    rw [findHtmlFiles_depth1_shape] at hp
    simp only [List.mem_flatMap] at hp
    obtain ⟨e, _, hpe⟩ := hp
    cases e with
    | file nm =>
      by_cases hok : (extnameIsHtml nm && nameSelected names nm) = true
      · simp [hok] at hpe
        exact ⟨nm, hpe⟩
      · simp only [Bool.not_eq_true] at hok
        simp [hok] at hpe
    | dir nm cs => simp at hpe
  · intro n hn hok
    rw [findHtmlFiles_depth1_shape]
    simp only [List.mem_flatMap]
    exact ⟨.file n, hn, by simp [hok]⟩
  · intro p hp
    rw [copyDir_depth1_shape] at hp
    simp only [List.mem_flatMap] at hp
    obtain ⟨e, _, hpe⟩ := hp
    cases e with
    | file nm =>
      simp at hpe
      exact ⟨nm, hpe⟩
    | dir nm cs => simp at hpe
  · intro n hn
    rw [copyDir_depth1_shape]
    simp only [List.mem_flatMap]
    exact ⟨.file n, hn, by simp⟩

/-- C3 amended witness at the counterexample tree. -/
theorem C3_amended_depth1_witness :
    FsEntry.file "a.html" ∈
      ([.file "a.html", .dir "sub" [.file "b.html"]] : List FsEntry) ∧
    (extnameIsHtml "a.html" && nameSelected none "a.html") = true ∧
    ["a.html"] ∈
      findHtmlFiles (some 1) none 10 0 [.file "a.html", .dir "sub" [.file "b.html"]] := by
  refine ⟨List.Mem.head _, by decide, ?_⟩
  exact (C3_amended_depth1 [.file "a.html", .dir "sub" [.file "b.html"]] 9 none).2.1
    "a.html" (List.Mem.head _) (by decide)

/-! ## C9: attribute parser -/

theorem wsChar_facts (c : Char) (h : isWsChar c = true) :
    isWordChar c = false ∧ (c == '=') = false ∧ (c == '\x22') = false := by
  simp only [isWsChar, Bool.or_eq_true, beq_iff_eq] at h
  rcases h with ((((rfl | rfl) | rfl) | rfl) | rfl) | rfl <;>
    exact ⟨by decide, by decide, by decide⟩

theorem takeWhile_append_stop (p : Char → Bool) :
    ∀ (a : List Char) (b : Char) (q : List Char), a.all p = true → p b = false →
      (a ++ b :: q).takeWhile p = a := by
  intro a
  induction a with
  | nil => intro b q _ hb; simp [List.takeWhile_cons, hb]
  | cons x xs ih =>
    intro b q ha hb
    simp only [List.all_cons, Bool.and_eq_true] at ha
    simp [List.takeWhile_cons, ha.1, ih b q ha.2 hb]

/-- The head matcher of ATTR_REGEX succeeds on one well-formed pair with at
most one whitespace character on each side of the equals sign. -/
theorem attrTryMatch_pair (nm ws1 ws2 v : List Char)
    (h1 : nm ≠ []) (h2 : nm.all isWordChar = true)
    (h3 : ws1 = [] ∨ ∃ c, isWsChar c = true ∧ ws1 = [c])
    (h4 : ws2 = [] ∨ ∃ c, isWsChar c = true ∧ ws2 = [c])
    (h5 : v.all (fun c => !(c == '\x22')) = true) :
    attrTryMatch (nm ++ ws1 ++ '=' :: ws2 ++ '\x22' :: v ++ ['\x22']) = some (nm, v, []) := by
  have hw : (nm ++ ws1 ++ '=' :: ws2 ++ '\x22' :: v ++ ['\x22']).takeWhile isWordChar = nm := by
    rcases h3 with rfl | ⟨c, hc, rfl⟩
    · simpa using takeWhile_append_stop isWordChar nm '=' _ h2 (by decide)
    · simpa using takeWhile_append_stop isWordChar nm c _ h2 (wsChar_facts c hc).1
  have hdrop : (nm ++ ws1 ++ '=' :: ws2 ++ '\x22' :: v ++ ['\x22']).drop nm.length =
      ws1 ++ '=' :: ws2 ++ '\x22' :: v ++ ['\x22'] := by
    simp [List.append_assoc]
  have heq : eatOneWsThen '=' (ws1 ++ '=' :: ws2 ++ '\x22' :: v ++ ['\x22']) =
      some (ws2 ++ '\x22' :: v ++ ['\x22']) := by
    rcases h3 with rfl | ⟨c, hc, rfl⟩
    · simp [eatOneWsThen]
    · simp [eatOneWsThen, (wsChar_facts c hc).2.1, hc]
  have hqu : eatOneWsThen '\x22' (ws2 ++ '\x22' :: v ++ ['\x22']) = some (v ++ ['\x22']) := by
    rcases h4 with rfl | ⟨c, hc, rfl⟩
    · simp [eatOneWsThen]
    · simp [eatOneWsThen, (wsChar_facts c hc).2.2, hc]
  have hv : (v ++ ['\x22']).takeWhile (fun c => !(c == '\x22')) = v := by
    simpa using takeWhile_append_stop (fun c => !(c == '\x22')) v '\x22' [] h5 (by decide)
  have hvd : (v ++ ['\x22']).drop v.length = ['\x22'] := List.drop_left v ['\x22']
  simp only [attrTryMatch, hw, hdrop, heq, hqu, hv, hvd]
  simp [h1]

/-- The whole attribute scan on exactly one well-formed pair. -/
theorem parseAttributes_pair (nm ws1 ws2 v : List Char)
    (h1 : nm ≠ []) (h2 : nm.all isWordChar = true)
    (h3 : ws1 = [] ∨ ∃ c, isWsChar c = true ∧ ws1 = [c])
    (h4 : ws2 = [] ∨ ∃ c, isWsChar c = true ∧ ws2 = [c])
    (h5 : v.all (fun c => !(c == '\x22')) = true) :
    parseAttributes (String.mk (nm ++ ws1 ++ '=' :: ws2 ++ '\x22' :: v ++ ['\x22'])) =
      [(String.mk nm, String.mk v)] := by
  have hm := attrTryMatch_pair nm ws1 ws2 v h1 h2 h3 h4 h5
  obtain ⟨n0, nmr, rfl⟩ : ∃ n0 nmr, nm = n0 :: nmr := by
    cases nm with
    | nil => exact absurd rfl h1
    | cons a b => exact ⟨a, b, rfl⟩
  show attrScanGo (((n0 :: nmr) ++ ws1 ++ '=' :: ws2 ++ '\x22' :: v ++ ['\x22']).length + 1)
      ((n0 :: nmr) ++ ws1 ++ '=' :: ws2 ++ '\x22' :: v ++ ['\x22']) [] = _
  simp only [List.cons_append, List.length_cons] at hm ⊢
  simp only [attrScanGo, hm]
  rfl

/-- C9 as stated is refuted by two spaces before the equals sign: the raw
attribute text `a`, two spaces, equals, quoted `v` contains a
name-equals-quoted-value substring with whitespace around the equals sign,
yet the parser produces no entry: ATTR_REGEX tolerates at most one
whitespace character on each side. -/
theorem C9_counterexample : parseAttributes "a  =\x22v\x22" = [] := rfl

/-- C9 amended: the attribute parser maps every well-formed
name-equals-quoted-value pair with at most ONE whitespace character on each
side of the equals sign, and text that does not match the pattern is
silently ignored with no error. -/
theorem C9_amended (nm ws1 ws2 v : List Char)
    (h1 : nm ≠ []) (h2 : nm.all isWordChar = true)
    (h3 : ws1 = [] ∨ ∃ c, isWsChar c = true ∧ ws1 = [c])
    (h4 : ws2 = [] ∨ ∃ c, isWsChar c = true ∧ ws2 = [c])
    (h5 : v.all (fun c => !(c == '\x22')) = true) :
    parseAttributes (String.mk (nm ++ ws1 ++ '=' :: ws2 ++ '\x22' :: v ++ ['\x22'])) =
      [(String.mk nm, String.mk v)] ∧
    parseAttributes "junk !! a=\x22x\x22 ??" = [("a", "x")] :=
  ⟨parseAttributes_pair nm ws1 ws2 v h1 h2 h3 h4 h5, rfl⟩

/-- C9 amended witness: the pair `a`, space, equals, space, quoted `b`. -/
theorem C9_amended_witness :
    (['a'] : List Char) ≠ [] ∧
    parseAttributes (String.mk (['a'] ++ [' '] ++ '=' :: [' '] ++ '\x22' :: ['b'] ++ ['\x22'])) =
      [(String.mk ['a'], String.mk ['b'])] := by
  refine ⟨by decide, ?_⟩
  exact (C9_amended ['a'] [' '] [' '] ['b'] (by decide) (by decide)
    (Or.inr ⟨' ', by decide, rfl⟩) (Or.inr ⟨' ', by decide, rfl⟩) (by decide)).1

/-! ## C10: unbound loop prop throws -/

/-- C10: a for directive whose list identifier is unbound in the props
scope makes parseLoops throw (property access on undefined), and the
exception propagates through the resolver, aborting the processing of that
document, unlike condition-evaluation failure. -/
theorem C10_unbound_loop_throws :
    (∀ props : List (String × PropVal), lookupStr props "items" = none →
      parseLoops "\x7b% for x in items %\x7d[\x7b\x7bx\x7d\x7d]\x7b% endfor %\x7d" props =
        .error ()) ∧
    (∀ fuel : Nat,
      renderComponent (fuel + 1)
        ⟨[("c", "\x7b% for x in items %\x7d[\x7b\x7bx\x7d\x7d]\x7b% endfor %\x7d")], [], []⟩
        "c" [] "f.html" = .error ()) := by
  constructor
  · intro props h
    have hb : loopBody props ['i', 't', 'e', 'm', 's'] ['x']
        ['[', '\x7b', '\x7b', 'x', '\x7d', '\x7d', ']'] = .error () := by
      have h2 : lookupStr props (String.mk ['i', 't', 'e', 'm', 's']) = none := h
      simp only [loopBody]
      rw [h2]
    have e : parseLoops "\x7b% for x in items %\x7d[\x7b\x7bx\x7d\x7d]\x7b% endfor %\x7d" props =
        Except.bind (Except.bind (loopBody props ['i', 't', 'e', 'm', 's'] ['x']
            ['[', '\x7b', '\x7b', 'x', '\x7d', '\x7d', ']'])
          (fun rep => Except.ok (rep ++ ([] : List Char))))
          (fun out => Except.ok (String.mk out)) := rfl
    rw [e, hb]
    rfl
  · intro fuel
    rfl

/-- C10 witness: the empty props scope leaves `items` unbound. -/
theorem C10_unbound_loop_throws_witness :
    lookupStr ([] : List (String × PropVal)) "items" = none ∧
    parseLoops "\x7b% for x in items %\x7d[\x7b\x7bx\x7d\x7d]\x7b% endfor %\x7d"
      ([] : List (String × PropVal)) = .error () :=
  ⟨rfl, C10_unbound_loop_throws.1 [] rfl⟩

/-! ## C2: missing component -/

/-- C2: resolving a tag name absent from the Component Store returns null
without throwing and bumps the failed-resolution tally for the
name-and-origin key by exactly one; the document scan keeps the original
tag text verbatim, once per occurrence (shown on a document with two
occurrences, which ends with a tally of two and unchanged text). -/
theorem C2_missing_component :
    (∀ (fuel : Nat) (st : St) (nm origin : String) (props : List (String × String)),
      lookupStr st.components nm = none →
      lookupStr st.templateCache (cacheKey nm props) = none →
      renderComponent (fuel + 1) st nm props origin =
        .ok (none, bumpFailed st (nm ++ "|" ++ origin)) ∧
      failedCount (bumpFailed st (nm ++ "|" ++ origin)) (nm ++ "|" ++ origin) =
        failedCount st (nm ++ "|" ++ origin) + 1) ∧
    (∀ fuel : Nat,
      pct (fuel + 1) ⟨[], [], []⟩ "<missing a=\x22b\x22 /><missing a=\x22b\x22 />" "home.html" =
        .ok ("<missing a=\x22b\x22 /><missing a=\x22b\x22 />",
          ⟨[], [], [("missing|home.html", 2)]⟩)) := by
  constructor
  · intro fuel st nm origin props hc ht
    refine ⟨?_, failedCount_bumpFailed st (nm ++ "|" ++ origin)⟩
    simp only [renderComponent, renderComponentF]
    rw [ht, hc]
  · intro fuel
    rfl

/-- C2 witness: the empty store misses the component and the empty cache
misses the key. -/
theorem C2_missing_component_witness :
    lookupStr (St.mk [] [] []).components "missing" = none ∧
    lookupStr (St.mk [] [] []).templateCache (cacheKey "missing" [("a", "b")]) = none ∧
    renderComponent 3 (St.mk [] [] []) "missing" [("a", "b")] "home.html" =
      .ok (none, bumpFailed (St.mk [] [] []) ("missing" ++ "|" ++ "home.html")) :=
  ⟨rfl, rfl,
    (C2_missing_component.1 2 (St.mk [] [] []) "missing" "home.html" [("a", "b")] rfl rfl).1⟩

/-! ## C6: comment safety -/

theorem listStarts_close_extend (c : Char) (rest : List Char)
    (h : listStarts (c :: rest) commentClosePat = false) :
    listStarts ((c :: rest) ++ commentClosePat) commentClosePat = false := by
  match rest with
  | [] => simp [listStarts, commentClosePat]
  | [b] => simp [listStarts, commentClosePat]
  | b :: d :: rs =>
    simp only [List.cons_append, listStarts, commentClosePat] at h ⊢
    exact h

theorem findSubIdx_close_append (l : List Char) (h : hasSub commentClosePat l = false) :
    findSubIdx commentClosePat (l ++ commentClosePat) = some l.length := by
  induction l with
  | nil => decide
  | cons c r ih =>
    have h' : listStarts (c :: r) commentClosePat = false ∧
        hasSub commentClosePat r = false := by
      simpa only [hasSub, Bool.or_eq_false_iff] using h
    have hs := listStarts_close_extend c r h'.1
    simp only [List.cons_append, List.append_eq] at hs
    simp only [List.cons_append, findSubIdx, List.append_eq, hs, ih h'.2, List.length_cons,
      Bool.false_eq_true, if_false, Option.map_some']

/-- Extraction of a document that is exactly one comment: the whole text is
pushed and replaced by the placeholder. -/
theorem commentExtract_single (l : List Char) (i fl : Nat)
    (h : hasSub commentClosePat l = false) (hfl : l.length + 6 ≤ fl) :
    commentExtractGo (fl + 1) i ('<' :: '!' :: '-' :: '-' :: (l ++ commentClosePat)) =
      (placeholderFor i, ['<' :: '!' :: '-' :: '-' :: (l ++ commentClosePat)]) := by
  obtain ⟨g, rfl⟩ : ∃ g, fl = g + 1 := ⟨fl - 1, by omega⟩
  have h1 : listStarts ('<' :: '!' :: '-' :: '-' :: (l ++ commentClosePat))
      commentOpenPat = true := by
    simp [listStarts, commentOpenPat]
  have h3 := findSubIdx_close_append l h
  have hlen : ('<' :: '!' :: '-' :: '-' :: (l ++ commentClosePat)).length =
      4 + l.length + 3 := by
    simp [commentClosePat]
    omega
  have htake : ('<' :: '!' :: '-' :: '-' :: (l ++ commentClosePat)).take (4 + l.length + 3) =
      '<' :: '!' :: '-' :: '-' :: (l ++ commentClosePat) :=
    List.take_of_length_le (le_of_eq hlen)
  have hdrop2 : ('<' :: '!' :: '-' :: '-' :: (l ++ commentClosePat)).drop (4 + l.length + 3) =
      [] := List.drop_eq_nil_of_le (le_of_eq hlen)
  simp only [commentExtractGo, h1, if_true, List.drop_succ_cons, List.drop_zero, h3,
    htake, hdrop2]
  simp [commentExtractGo]

theorem tagScan_placeholder0
    (render : St → String → List (String × String) → Except Unit (Option String × St))
    (st : St) :
    tagScanGo render ((placeholderFor 0).length + 1) st (placeholderFor 0) =
      .ok (placeholderFor 0, st) := rfl

theorem restore_placeholder0 (x : List Char) :
    restoreGo [x] ((placeholderFor 0).length + 1) (placeholderFor 0) = x ++ [] := rfl

/-- C6: a document whose only component-tag syntax sits inside an HTML
comment comes out of the document scan unchanged, with the parser state
untouched (no resolution happens): the comment is swapped for a positional
placeholder before the tag scan and restored verbatim afterwards.  Stated
for any document that is exactly one comment whose interior has no early
close delimiter. -/
theorem C6_comment_safety (fuel : Nat) (st : St) (origin : String) (inner : List Char)
    (h : hasSub commentClosePat inner = false) :
    pct (fuel + 1) st (String.mk ('<' :: '!' :: '-' :: '-' :: (inner ++ commentClosePat)))
      origin =
      .ok (String.mk ('<' :: '!' :: '-' :: '-' :: (inner ++ commentClosePat)), st) := by
  have hd : (String.mk ('<' :: '!' :: '-' :: '-' :: (inner ++ commentClosePat))).data =
      '<' :: '!' :: '-' :: '-' :: (inner ++ commentClosePat) := rfl
  have hlen : ('<' :: '!' :: '-' :: '-' :: (inner ++ commentClosePat)).length =
      (inner.length + 6) + 1 := by
    simp [commentClosePat]
  simp only [pct, pctF, hd, hlen]
  rw [commentExtract_single inner 0 (inner.length + 6 + 1) h (by omega)]
  simp only [tagScan_placeholder0]
  show Except.ok
      (String.mk (restoreGo ['<' :: '!' :: '-' :: '-' :: (inner ++ commentClosePat)]
        ((placeholderFor 0).length + 1) (placeholderFor 0)), st) =
    Except.ok (String.mk ('<' :: '!' :: '-' :: '-' :: (inner ++ commentClosePat)), st)
  rw [restore_placeholder0]
  simp

/-- C6 witness at the spec's own example document. -/
theorem C6_comment_safety_witness :
    hasSub commentClosePat " <fakeComponent prop=\x22x\x22 /> ".data = false ∧
    pct 5 (St.mk [] [] [])
      (String.mk ('<' :: '!' :: '-' :: '-' ::
        (" <fakeComponent prop=\x22x\x22 /> ".data ++ commentClosePat))) "p.html" =
      .ok (String.mk ('<' :: '!' :: '-' :: '-' ::
        (" <fakeComponent prop=\x22x\x22 /> ".data ++ commentClosePat)), St.mk [] [] []) :=
  ⟨by decide,
    C6_comment_safety 4 (St.mk [] [] []) "p.html" " <fakeComponent prop=\x22x\x22 /> ".data
      (by decide)⟩

/-! ## C8: copy-through invariant -/

theorem hasSub_cons_false (pat : List Char) (c : Char) (r : List Char)
    (h : hasSub pat (c :: r) = false) :
    listStarts (c :: r) pat = false ∧ hasSub pat r = false := by
  simpa only [hasSub, Bool.or_eq_false_iff] using h

theorem commentExtractGo_noop : ∀ (l : List Char) (i : Nat),
    hasSub commentOpenPat l = false →
    commentExtractGo (l.length + 1) i l = (l, []) := by
  intro l
  induction l with
  | nil => intro i _; rfl
  | cons c r ih =>
    intro i h
    obtain ⟨h1, h2⟩ := hasSub_cons_false _ _ _ h
    simp only [List.length_cons, commentExtractGo, h1, Bool.false_eq_true, if_false,
      ih i h2]

theorem restoreGo_noop : ∀ (l : List Char) (cmts : List (List Char)),
    hasSub commentOpenPat l = false →
    restoreGo cmts (l.length + 1) l = l := by
  intro l
  induction l with
  | nil => intro cmts _; rfl
  | cons c r ih =>
    intro cmts h
    obtain ⟨h1, h2⟩ := hasSub_cons_false _ _ _ h
    have hrp : restorePat = commentOpenPat ++ "COMMENT_PLACEHOLDER_".data := by decide
    have h1' : listStarts (c :: r) restorePat = false := by
      cases hs : listStarts (c :: r) restorePat
      · rfl
      · rw [hrp] at hs
        have := listStarts_of_append _ _ _ hs
        rw [h1] at this
        exact this.symm
    simp only [List.length_cons, restoreGo, h1', Bool.false_eq_true, if_false, ih cmts h2]

theorem tagScanGo_noop
    (render : St → String → List (String × String) → Except Unit (Option String × St)) :
    ∀ (l : List Char) (st : St), noTagMatch l = true →
    tagScanGo render (l.length + 1) st l = .ok (l, st) := by
  intro l
  induction l with
  | nil => intro st _; rfl
  | cons c r ih =>
    intro st h
    simp only [noTagMatch, Bool.and_eq_true, Option.isNone_iff_eq_none] at h
    simp only [List.length_cons, tagScanGo, h.1, ih st h.2]
    rfl

theorem matchIfAt_none (l : List Char) (h : listStarts l ['\x7b', '%'] = false) :
    matchIfAt l = none := by
  simp [matchIfAt, h]

theorem matchForAt_none (l : List Char) (h : listStarts l ['\x7b', '%'] = false) :
    matchForAt l = none := by
  have hf : listStarts l forOpenLit = false := by
    cases hs : listStarts l forOpenLit
    · rfl
    · have hm : forOpenLit = ['\x7b', '%'] ++ [' ', 'f', 'o', 'r'] := rfl
      rw [hm] at hs
      have := listStarts_of_append _ _ _ hs
      rw [h] at this
      exact this.symm
  simp [matchForAt, hf]

theorem condScanGo_noop (props : List (String × PropVal)) : ∀ (l : List Char),
    hasSub ['\x7b', '%'] l = false →
    condScanGo props (l.length + 1) l = .ok l := by
  intro l
  induction l with
  | nil => intro _; rfl
  | cons c r ih =>
    intro h
    obtain ⟨h1, h2⟩ := hasSub_cons_false _ _ _ h
    simp only [List.length_cons, condScanGo, matchIfAt_none _ h1, ih h2]
    rfl

theorem loopScanGo_noop (props : List (String × PropVal)) : ∀ (l : List Char),
    hasSub ['\x7b', '%'] l = false →
    loopScanGo props (l.length + 1) l = .ok l := by
  intro l
  induction l with
  | nil => intro _; rfl
  | cons c r ih =>
    intro h
    obtain ⟨h1, h2⟩ := hasSub_cons_false _ _ _ h
    simp only [List.length_cons, loopScanGo, matchForAt_none _ h1, ih h2]
    rfl

/-- C8: for a document with no comment opener, no tag-scanner match, no
directive delimiter and no placeholder braces, the full processing
pipeline is the identity: comment extraction and restoration, the tag
scan, and the conditional and loop passes all return the input unchanged
and leave the parser state untouched. -/
theorem C8_copy_through (content : String) (props : List (String × PropVal)) (st : St)
    (origin : String) (fuel : Nat)
    (h1 : hasSub commentOpenPat content.data = false)
    (h2 : noTagMatch content.data = true)
    (h3 : hasSub ['\x7b', '%'] content.data = false)
    (h4 : hasSub ['\x7b', '\x7b'] content.data = false) :
    pct (fuel + 1) st content origin = .ok (content, st) ∧
    parseConditionals content props = .ok content ∧
    parseLoops content props = .ok content := by
  obtain ⟨l⟩ := content
  simp only [String.data] at h1 h2 h3
  refine ⟨?_, ?_, ?_⟩
  · simp only [pct, pctF]
    rw [commentExtractGo_noop l 0 h1]
    simp only
    rw [tagScanGo_noop _ l st h2]
    show Except.ok (String.mk (restoreGo [] (l.length + 1) l), st) = _
    rw [restoreGo_noop l [] h1]
  · simp only [parseConditionals]
    rw [condScanGo_noop props l h3]
    rfl
  · simp only [parseLoops]
    rw [loopScanGo_noop props l h3]
    rfl

/-! ## C1: cache idempotence and reload invalidation -/

theorem bumpFailed_templateCache (st : St) (k : String) :
    (bumpFailed st k).templateCache = st.templateCache := rfl

theorem bumpFailed_components (st : St) (k : String) :
    (bumpFailed st k).components = st.components := rfl

theorem setCache_lookup (st : St) (k v : String) :
    lookupStr (setCache st k v).templateCache k = some v :=
  lookupStr_upsertStr_self st.templateCache k v

/-- C1: within one build a successful resolution makes every later
resolution of the same (component, props) pair return the same fragment
(the Expansion Cache short-circuits, and a missing component misses again
identically); but the watch-mode reload path (`loadComponents` replaces
the store, `processDirectory` clears only the failed-component tally)
never clears the template cache, so after the component template changes
from A to B, re-resolving the same key returns the stale fragment built
from A, not the fragment a fresh store produces from B. -/
theorem C1_cache_repeat_and_stale_reload :
    (∀ (m k : Nat) (st : St) (nm origin : String) (props : List (String × String))
        (r : Option String) (st₁ : St),
      renderComponent m st nm props origin = .ok (r, st₁) →
      ∃ st₂, renderComponent (k + 1) st₁ nm props origin = .ok (r, st₂)) ∧
    renderComponent 5 (St.mk [("c", "A")] [] []) "c" [] "f.html" =
      .ok (some "\n<!-- Component components/c -->\nA\n<!-- End component components/c -->\n",
        St.mk [("c", "A")]
          [("c-\x7b\x7d",
            "\n<!-- Component components/c -->\nA\n<!-- End component components/c -->\n")]
          []) ∧
    renderComponent 5
      (St.mk [("c", "B")]
        [("c-\x7b\x7d",
          "\n<!-- Component components/c -->\nA\n<!-- End component components/c -->\n")]
        []) "c" [] "f.html" =
      .ok (some "\n<!-- Component components/c -->\nA\n<!-- End component components/c -->\n",
        St.mk [("c", "B")]
          [("c-\x7b\x7d",
            "\n<!-- Component components/c -->\nA\n<!-- End component components/c -->\n")]
          []) ∧
    renderComponent 5 (St.mk [("c", "B")] [] []) "c" [] "f.html" =
      .ok (some "\n<!-- Component components/c -->\nB\n<!-- End component components/c -->\n",
        St.mk [("c", "B")]
          [("c-\x7b\x7d",
            "\n<!-- Component components/c -->\nB\n<!-- End component components/c -->\n")]
          []) ∧
    ("\n<!-- Component components/c -->\nA\n<!-- End component components/c -->\n" : String) ≠
      "\n<!-- Component components/c -->\nB\n<!-- End component components/c -->\n" := by
  refine ⟨?_, rfl, rfl, rfl, by decide⟩
  intro m k st nm origin props r st₁ h
  cases m with
  | zero => exact Except.noConfusion h
  | succ n =>
    simp only [renderComponent, renderComponentF] at h
    split at h
    next v heq =>
      simp only [Except.ok.injEq, Prod.mk.injEq] at h
      obtain ⟨rfl, rfl⟩ := h
      refine ⟨st, ?_⟩
      simp only [renderComponent, renderComponentF, heq]
    next heq =>
      split at h
      next heq2 =>
        simp only [Except.ok.injEq, Prod.mk.injEq] at h
        obtain ⟨rfl, rfl⟩ := h
        refine ⟨bumpFailed (bumpFailed st (nm ++ "|" ++ origin)) (nm ++ "|" ++ origin), ?_⟩
        simp only [renderComponent, renderComponentF, bumpFailed_templateCache,
          bumpFailed_components, heq, heq2]
      next template heq2 =>
        split at h
        next e heq3 => exact Except.noConfusion h
        next t2 heq3 =>
          split at h
          next e heq4 => exact Except.noConfusion h
          next t3 heq4 =>
            split at h
            next e heq5 => exact Except.noConfusion h
            next t4 st' heq5 =>
              simp only [Except.ok.injEq, Prod.mk.injEq] at h
              obtain ⟨rfl, rfl⟩ := h
              refine ⟨setCache st' (cacheKey nm props) (wrapFragment nm t4), ?_⟩
              simp only [renderComponent, renderComponentF, setCache_lookup]

/-- C1 witness: a concrete first resolution, then the repeat resolution. -/
theorem C1_cache_repeat_witness :
    renderComponent 5 (St.mk [("c", "A")] [] []) "c" [] "f.html" =
      .ok (some "\n<!-- Component components/c -->\nA\n<!-- End component components/c -->\n",
        St.mk [("c", "A")]
          [("c-\x7b\x7d",
            "\n<!-- Component components/c -->\nA\n<!-- End component components/c -->\n")]
          []) ∧
    ∃ st₂,
      renderComponent 1
        (St.mk [("c", "A")]
          [("c-\x7b\x7d",
            "\n<!-- Component components/c -->\nA\n<!-- End component components/c -->\n")]
          []) "c" [] "f.html" =
        .ok
          (some "\n<!-- Component components/c -->\nA\n<!-- End component components/c -->\n",
            st₂) :=
  ⟨rfl,
    C1_cache_repeat_and_stale_reload.1 5 0 (St.mk [("c", "A")] [] []) "c" "f.html" []
      (some "\n<!-- Component components/c -->\nA\n<!-- End component components/c -->\n")
      (St.mk [("c", "A")]
        [("c-\x7b\x7d",
          "\n<!-- Component components/c -->\nA\n<!-- End component components/c -->\n")]
        []) rfl⟩

/-- C8 witness on a plain document. -/
theorem C8_copy_through_witness :
    hasSub commentOpenPat "<p>hello</p>".data = false ∧
    noTagMatch "<p>hello</p>".data = true ∧
    hasSub ['\x7b', '%'] "<p>hello</p>".data = false ∧
    hasSub ['\x7b', '\x7b'] "<p>hello</p>".data = false ∧
    pct 3 (St.mk [] [] []) "<p>hello</p>" "p.html" = .ok ("<p>hello</p>", St.mk [] [] []) :=
  ⟨by decide, by decide, by decide, by decide,
    (C8_copy_through "<p>hello</p>" [] (St.mk [] [] []) "p.html" 2
      (by decide) (by decide) (by decide) (by decide)).1⟩

end Htmlc
